import Mathlib

/-!
Shallow embedding of `thrifty/carrier_detect.py`.

Conventions of the embedding:
* Python ints are `ℤ`; array lengths are coerced from `ℕ`.
* IEEE floats are modelled as exact reals `ℝ`; a NaN-carrying value is
  `Fl := Option ℝ` with `none` standing for NaN (NaN arises in this code
  only from `sqrt` of a negative number, and propagates through `+`, `*`).
* numpy arrays are `List ℝ`.
* The `ValueError` raised by `fft_range_index` is `Except.error (start, stop)`,
  carrying the offending bounds that the Python message interpolates.
-/

namespace CarrierDetect

/-- Embedding of `fft_range_index(start, stop, length)` from
`carrier_detect.py`.  The Python body is translated statement by statement:
the range check raises; the first branch rebinds *both* variables when
`start < 0 and stop >= 0`; the next two `if`s convert a still-negative bound;
the final `if` swaps when `stop < start`. -/
def fft_range_index (start stop length : ℤ) : Except (ℤ × ℤ) (ℤ × ℤ) :=
  if |start| ≥ length ∨ |stop| ≥ length then
    Except.error (start, stop)
  else
    let p := if start < 0 ∧ stop ≥ 0 then (length + start, length + stop) else (start, stop)
    let start1 := p.1
    let stop1 := p.2
    let start2 := if start1 < 0 then length + start1 else start1
    let stop2 := if stop1 < 0 then length + stop1 else stop1
    if stop2 < start2 then Except.ok (stop2, start2) else Except.ok (start2, stop2)

/-- The conversion rule that claim C1 (and the corresponding spec sentences)
describes: each negative bound converted independently, a non-negative bound
left untouched, then a swap when the resolved stop is below the resolved
start.  Written from the spec's words, to be compared with the code's
`fft_range_index`. -/
def resolve_range_claimed (start stop length : ℤ) : ℤ × ℤ :=
  let start_idx := if start < 0 then length + start else start
  let stop_idx := if stop < 0 then length + stop else stop
  if stop_idx < start_idx then (stop_idx, start_idx) else (start_idx, stop_idx)

/-- The conversion rule the code actually implements: when `start < 0` and
`stop ≥ 0`, `length` is added to *both* bounds (also to the non-negative
`stop`); otherwise each negative bound is converted independently; then the
swap check. -/
def resolve_range_actual (start stop length : ℤ) : ℤ × ℤ :=
  if start < 0 ∧ stop ≥ 0 then
    (length + start, length + stop)
  else
    let start_idx := if start < 0 then length + start else start
    let stop_idx := if stop < 0 then length + stop else stop
    if stop_idx < start_idx then (stop_idx, start_idx) else (start_idx, stop_idx)

instance {e a : Type} [DecidableEq e] [DecidableEq a] : DecidableEq (Except e a) := fun x y =>
  match x, y with
  | Except.error u, Except.error v => decidable_of_iff (u = v) (by simp)
  | Except.ok u, Except.ok v => decidable_of_iff (u = v) (by simp)
  | Except.error _, Except.ok _ => isFalse (by simp)
  | Except.ok _, Except.error _ => isFalse (by simp)

/-- On inputs satisfying the precondition, the code's `fft_range_index`
computes `resolve_range_actual`. -/
lemma fft_range_index_valid (s t L : ℤ) (hs : |s| < L) (ht : |t| < L) :
    fft_range_index s t L = Except.ok (resolve_range_actual s t L) := by
  have hs1 := abs_lt.mp hs
  have ht1 := abs_lt.mp ht
  simp only [fft_range_index, resolve_range_actual]
  split_ifs <;> simp_all [Prod.ext_iff] <;> omega

/-- Bounds on the resolved pair: the start index is non-negative, the pair is
ordered, and the stop index exceeds `length - 1` exactly in the
`start < 0 ≤ stop` wrapping case (where it stays below `2*length`). -/
lemma resolve_range_actual_bounds (s t L : ℤ) (hs : |s| < L) (ht : |t| < L) :
    0 ≤ (resolve_range_actual s t L).1 ∧
    (resolve_range_actual s t L).1 ≤ (resolve_range_actual s t L).2 ∧
    (resolve_range_actual s t L).2 < 2 * L ∧
    (¬(s < 0 ∧ 0 ≤ t) → (resolve_range_actual s t L).2 < L) ∧
    ((s < 0 ∧ 0 ≤ t) → (resolve_range_actual s t L).1 < L ∧ L ≤ (resolve_range_actual s t L).2) := by
  have hs1 := abs_lt.mp hs
  have ht1 := abs_lt.mp ht
  simp only [resolve_range_actual]
  split_ifs <;> simp_all <;> omega

/-- C1 (counterexample): the claim that each negative bound is converted
independently and no length offset is ever added to a non-negative bound is
false at `(start, stop, length) = (-10, 10, 1024)`: the independent-conversion
rule yields `(10, 1014)` after the swap, but the code adds `1024` to the
non-negative `stop` as well and returns `(1014, 1034)`. -/
theorem c1_counterexample :
    |(-10 : ℤ)| < 1024 ∧ |(10 : ℤ)| < 1024 ∧
    resolve_range_claimed (-10) 10 1024 = (10, 1014) ∧
    fft_range_index (-10) 10 1024 = Except.ok (1014, 1034) ∧
    fft_range_index (-10) 10 1024 ≠ Except.ok (resolve_range_claimed (-10) 10 1024) := by
  decide

/-- C1 (amended): for every `(start, stop, length)` with `|start| < length`
and `|stop| < length`, `fft_range_index` first checks whether
`start < 0 ≤ stop`, in which case it adds `length` to *both* bounds (also to
the non-negative `stop`); otherwise it converts each negative bound
independently; finally it swaps the two values only if the resolved stop is
less than the resolved start. -/
theorem c1_amended (s t L : ℤ) (hs : |s| < L) (ht : |t| < L) :
    fft_range_index s t L = Except.ok (resolve_range_actual s t L) :=
  fft_range_index_valid s t L hs ht

theorem c1_amended_witness :
    |(-10 : ℤ)| < 1024 ∧ |(10 : ℤ)| < 1024 ∧
    fft_range_index (-10) 10 1024 = Except.ok (resolve_range_actual (-10) 10 1024) :=
  ⟨by decide, by decide, c1_amended (-10) 10 1024 (by decide) (by decide)⟩

/-- C3: the four documented concrete cases of `fft_range_index` at
`length = 1024`. -/
theorem c3_concrete_cases :
    fft_range_index 50 100 1024 = Except.ok (50, 100) ∧
    fft_range_index 0 (-1) 1024 = Except.ok (0, 1023) ∧
    fft_range_index (-10) 10 1024 = Except.ok (1014, 1034) ∧
    fft_range_index (-1) 0 1024 = Except.ok (1023, 1024) := by
  decide

/-- C4 (counterexample): at `(start, stop, length) = (-10, 10, 1024)` — a
valid input — the resolved pair is `(1014, 1034)`, and applying
`fft_range_index` to that pair with the same length does not return the pair
unchanged: it fails the `abs < length` precondition and raises OutOfRange. -/
theorem c4_counterexample :
    |(-10 : ℤ)| < 1024 ∧ |(10 : ℤ)| < 1024 ∧
    fft_range_index (-10) 10 1024 = Except.ok (1014, 1034) ∧
    fft_range_index 1014 1034 1024 = Except.error (1014, 1034) := by
  decide

/-- C4 (amended): on valid inputs the output always satisfies
`start_idx ≤ stop_idx`; re-applying `fft_range_index` to its own output
yields the same pair without error whenever the input was not in the
`start < 0 ≤ stop` wrapping case; in that wrapping case the output stop
index reaches `length` or beyond, so the second application fails with
OutOfRange naming the resolved pair. -/
theorem c4_amended (s t L : ℤ) (hs : |s| < L) (ht : |t| < L) (a b : ℤ)
    (h : fft_range_index s t L = Except.ok (a, b)) :
    a ≤ b ∧
    (¬(s < 0 ∧ 0 ≤ t) → fft_range_index a b L = Except.ok (a, b)) ∧
    ((s < 0 ∧ 0 ≤ t) → fft_range_index a b L = Except.error (a, b)) := by
  have hv := fft_range_index_valid s t L hs ht
  rw [hv] at h
  have hres : resolve_range_actual s t L = (a, b) := Except.ok.inj h
  obtain ⟨h0a, hord, hlt2L, hnw, hw⟩ := resolve_range_actual_bounds s t L hs ht
  rw [hres] at h0a hord hlt2L hnw hw
  refine ⟨hord, ?_, ?_⟩
  · intro hcase
    have hbL : b < L := hnw hcase
    have hva : |a| < L := by rw [abs_of_nonneg h0a]; omega
    have hvb : |b| < L := by rw [abs_of_nonneg (le_trans h0a hord)]; omega
    rw [fft_range_index_valid a b L hva hvb]
    simp only [resolve_range_actual]
    split_ifs <;> simp_all <;> omega
  · intro hcase
    obtain ⟨-, hbL⟩ := hw hcase
    simp only [fft_range_index]
    rw [if_pos (Or.inr (by rw [abs_of_nonneg (le_trans h0a hord)]; omega))]

theorem c4_amended_witness :
    (50 : ℤ) ≤ 100 ∧
    (¬((50 : ℤ) < 0 ∧ (0 : ℤ) ≤ 100) → fft_range_index 50 100 1024 = Except.ok (50, 100)) ∧
    (((50 : ℤ) < 0 ∧ (0 : ℤ) ≤ 100) → fft_range_index 50 100 1024 = Except.error (50, 100)) :=
  c4_amended 50 100 1024 (by decide) (by decide) 50 100 (by decide)

/-! ## Floating-point values

IEEE doubles are modelled as exact reals; `none` stands for NaN.  In this
code NaN arises only from `np.sqrt` of a negative number and then propagates
through `+`, `*` and `**2` (IEEE: any arithmetic on NaN gives NaN, and every
ordered comparison with NaN is false).  Infinities are not modelled: no claim
depends on them (they could only appear via the division in
`_estimate_noise` when the spectrum length is 1). -/

abbrev Fl := Option ℝ

def flAdd (a b : Fl) : Fl := a.bind fun x => b.map fun y => x + y

def flMul (a b : Fl) : Fl := a.bind fun x => b.map fun y => x * y

noncomputable def flSqrt (a : Fl) : Fl :=
  a.bind fun x => if x < 0 then none else some (Real.sqrt x)

/-- Strict `<` on floats: false whenever either side is NaN. -/
def flLt (a b : Fl) : Prop :=
  match a, b with
  | some x, some y => x < y
  | _, _ => False

/-! ## numpy / scipy primitives used by the code -/

/-- Embedding of `np.argmax`: index of the first occurrence of the maximum value.  A
strictly greater element displaces the running best, so ties keep the lowest
index.  numpy raises on an empty array; the embedding returns 0 there (the
code never reaches that case: window selections are non-empty, and a
zero-length `peak_filter` is outside the data model's normalisation
constraint `sum(weights**2) = 1`). -/
noncomputable def np_argmax_go : List ℝ → ℕ → ℕ → ℝ → ℕ
  | [], _, best_idx, _ => best_idx
  | v :: rest, i, best_idx, best_val =>
    if best_val < v then np_argmax_go rest (i + 1) i v
    else np_argmax_go rest (i + 1) best_idx best_val

noncomputable def np_argmax : List ℝ → ℕ
  | [] => 0
  | v :: rest => np_argmax_go rest 1 0 v

/-- Embedding of `np.take(array, range(start, stop+1), mode='wrap')`: elements at indices
`start..stop` (closed interval), each taken modulo the array length. -/
def np_take_wrap (array : List ℝ) (start stop : ℤ) : List ℝ :=
  (List.range (stop + 1 - start).toNat).map fun (i : ℕ) =>
    array.getD ((start + (i : ℤ)) % (array.length : ℤ)).toNat 0

/-- Embedding of `np.std`: population standard deviation
`sqrt(mean((x - mean(x))**2))`. -/
noncomputable def np_std (l : List ℝ) : ℝ :=
  let m := l.sum / (l.length : ℝ)
  Real.sqrt ((l.map fun x => (x - m) ^ 2).sum / (l.length : ℝ))

/-- Embedding of `scipy.signal.lfilter(b, 1, x)`: the causal FIR filter
`y[n] = sum_i b[i] * x[n-i]` with zero initial history. -/
def lfilter (b x : List ℝ) : List ℝ :=
  (List.range x.length).map fun n =>
    ((List.range b.length).map fun i =>
      b.getD i 0 * (if i ≤ n then x.getD (n - i) 0 else 0)).sum

/-! ## The detector pipeline -/

/-- Embedding of `_filter(fft_mag, weights)`: the filter delay is
`len(weights) - argmax(weights) - 1`; the kernel is the reversed, squared
weights; the output is the elementwise square root of the FIR-filtered
squared input.  (`np.sqrt` here never sees a negative radicand: the filtered
values are sums of products of squares, so `Real.sqrt` is faithful.) -/
noncomputable def _filter (fft_mag weights : List ℝ) : List ℝ × ℤ :=
  let delay : ℤ := (weights.length : ℤ) - (np_argmax weights : ℤ) - 1
  let coeffs := weights.reverse.map fun w => w ^ 2
  let filtered := (lfilter coeffs (fft_mag.map fun x => x ^ 2)).map Real.sqrt
  (filtered, delay)

/-- Embedding of `_get_window(array, window)`: `None` defaults to
`(0, -1)`; the bounds go through `fft_range_index`; the selection is the
wrapped closed-interval extraction.  Also returns `start_idx`. -/
def _get_window (array : List ℝ) (window : Option (ℤ × ℤ)) :
    Except (ℤ × ℤ) (List ℝ × ℤ) :=
  let se := match window with
    | none => ((0 : ℤ), (-1 : ℤ))
    | some w => w
  match fft_range_index se.1 se.2 (array.length : ℤ) with
  | Except.error e => Except.error e
  | Except.ok (start_idx, stop_idx) =>
    Except.ok (np_take_wrap array start_idx stop_idx, start_idx)

/-- Embedding of `_window_peak(fft_mag, window, peak_filter)`.  Note the
wrap step: the code subtracts `len(fft_mag)` only when
`peak_idx > len(fft_mag)` — strictly greater than the length itself, not
than `length - 1`. -/
noncomputable def _window_peak (fft_mag : List ℝ) (window : Option (ℤ × ℤ))
    (peak_filter : Option (List ℝ)) : Except (ℤ × ℤ) (ℤ × ℝ) :=
  match _get_window fft_mag window with
  | Except.error e => Except.error e
  | Except.ok (mags0, start_idx) =>
    let mf := match peak_filter with
      | some w => _filter mags0 w
      | none => (mags0, (0 : ℤ))
    let mags := mf.1
    let filter_delay := mf.2
    let max_idx := np_argmax mags
    let peak_mag := mags.getD max_idx 0
    let peak_idx := (max_idx : ℤ) - filter_delay + start_idx
    Except.ok
      (if peak_idx > (fft_mag.length : ℤ) then peak_idx - (fft_mag.length : ℤ) else peak_idx,
       peak_mag)

/-- Embedding of `_estimate_noise(fft_mag, peak_mag)`: total energy minus
twice the peak power, divided by `len(fft_mag) - 1`, then `np.sqrt` (NaN when
the radicand is negative). -/
noncomputable def _estimate_noise (fft_mag : List ℝ) (peak_mag : ℝ) : Fl :=
  let fft_energy := (fft_mag.map fun x => x ^ 2).sum
  let peak_power := peak_mag ^ 2
  let noise_power := (fft_energy - 2 * peak_power) / ((fft_mag.length : ℝ) - 1)
  flSqrt (some noise_power)

/-- Embedding of `_calculate_threshold(fft_mag, thresh_coeffs, noise_rms)`:
the stddev is computed only when the stddev coefficient is truthy (nonzero),
and the threshold is `sqrt(const + snr * noise_rms**2 + stddev_w *
stddev**2)` in NaN-propagating float arithmetic. -/
noncomputable def _calculate_threshold (fft_mag : List ℝ) (thresh_coeffs : ℝ × ℝ × ℝ)
    (noise_rms : Fl) : Fl :=
  let thresh_const := thresh_coeffs.1
  let thresh_snr := thresh_coeffs.2.1
  let thresh_stddev := thresh_coeffs.2.2
  let stddev : ℝ := if thresh_stddev ≠ 0 then np_std fft_mag else 0
  flSqrt (flAdd (flAdd (some thresh_const)
      (flMul (some thresh_snr) (flMul noise_rms noise_rms)))
    (some (thresh_stddev * stddev ^ 2)))

/-- Embedding of `detect(fft_mag, thresh_coeffs, window, peak_filter)`:
peak, then noise estimate, then threshold, then the strict comparison
`peak_mag > threshold` (false when the threshold is NaN). -/
noncomputable def detect (fft_mag : List ℝ) (thresh_coeffs : ℝ × ℝ × ℝ)
    (window : Option (ℤ × ℤ)) (peak_filter : Option (List ℝ)) :
    Except (ℤ × ℤ) (Prop × ℤ × ℝ × Fl) :=
  match _window_peak fft_mag window peak_filter with
  | Except.error e => Except.error e
  | Except.ok (peak_idx, peak_mag) =>
    let noise_rms := _estimate_noise fft_mag peak_mag
    let threshold := _calculate_threshold fft_mag thresh_coeffs noise_rms
    let detected : Prop := flLt threshold (some peak_mag)
    Except.ok (detected, peak_idx, peak_mag, noise_rms)

/-! ## Error propagation helpers -/

/-- Lemma: `fft_range_index` returns the error carrying exactly the offending input
bounds, precisely when a bound violates `abs < length`. -/
lemma fft_range_index_error_iff (s t L : ℤ) (e : ℤ × ℤ) :
    fft_range_index s t L = Except.error e ↔ e = (s, t) ∧ (|s| ≥ L ∨ |t| ≥ L) := by
  simp only [fft_range_index]
  split_ifs with h1 h2 <;> simp_all [eq_comm]

/-- The only error `detect` can produce is the one propagated from
`fft_range_index` applied to the window bounds (`(0, -1)` when the window is
`None`) and the spectrum length. -/
lemma detect_error_iff (mag : List ℝ) (coeffs : ℝ × ℝ × ℝ) (w : Option (ℤ × ℤ))
    (pf : Option (List ℝ)) (e : ℤ × ℤ) :
    detect mag coeffs w pf = Except.error e ↔
      fft_range_index (w.getD (0, -1)).1 (w.getD (0, -1)).2 (mag.length : ℤ) =
        Except.error e := by
  unfold detect _window_peak _get_window
  cases w <;>
    simp only [Option.getD] <;>
    rcases h : fft_range_index _ _ (mag.length : ℤ) with e1 | ⟨a, b⟩ <;>
    simp [h]

/-- When the window bounds are valid, `detect` returns normally. -/
lemma detect_ok_of_valid (mag : List ℝ) (coeffs : ℝ × ℝ × ℝ) (w : Option (ℤ × ℤ))
    (pf : Option (List ℝ))
    (hs : |(w.getD (0, -1)).1| < (mag.length : ℤ))
    (ht : |(w.getD (0, -1)).2| < (mag.length : ℤ)) :
    ∃ r, detect mag coeffs w pf = Except.ok r := by
  rcases h : detect mag coeffs w pf with e | r
  · rw [detect_error_iff, fft_range_index_error_iff] at h
    rcases h.2 with h2 | h2 <;> omega
  · exact ⟨r, rfl⟩

/-- C8: `detect` with `window=None` returns exactly the same result as
`detect` with the explicit window `(0, -1)`, for every spectrum, coefficient
triple and peak filter: the default branch of `_get_window` substitutes
literally these bounds. -/
theorem c8_default_window (mag : List ℝ) (coeffs : ℝ × ℝ × ℝ)
    (pf : Option (List ℝ)) :
    detect mag coeffs none pf = detect mag coeffs (some (0, -1)) pf := rfl

/-- C5: `fft_range_index` fails exactly when `|start| ≥ length` or
`|stop| ≥ length`, with the error naming the offending bounds; the detector's
only error is that same condition applied to its window bounds (default
`(0, -1)`); and for bounds satisfying the precondition `detect` returns
normally.  The peak-filter hypothesis records the data model's constraint
that filter weights are a nonempty, normalised sequence (on an empty filter
the Python `np.argmax` would raise a different error before any of this). -/
theorem c5_out_of_range (s t L : ℤ) (mag : List ℝ) (coeffs : ℝ × ℝ × ℝ)
    (w : Option (ℤ × ℤ)) (pf : Option (List ℝ)) (hpf : ∀ l, pf = some l → l ≠ []) :
    (∀ e, fft_range_index s t L = Except.error e ↔ e = (s, t) ∧ (|s| ≥ L ∨ |t| ≥ L)) ∧
    (∀ e, detect mag coeffs w pf = Except.error e ↔
      e = w.getD (0, -1) ∧
        (|(w.getD (0, -1)).1| ≥ (mag.length : ℤ) ∨
          |(w.getD (0, -1)).2| ≥ (mag.length : ℤ))) ∧
    (|(w.getD (0, -1)).1| < (mag.length : ℤ) → |(w.getD (0, -1)).2| < (mag.length : ℤ) →
      ∃ r, detect mag coeffs w pf = Except.ok r) := by
  refine ⟨fun e => fft_range_index_error_iff s t L e, fun e => ?_,
    detect_ok_of_valid mag coeffs w pf⟩
  rw [detect_error_iff, fft_range_index_error_iff]

theorem c5_out_of_range_witness :
    fft_range_index 1024 0 1024 = Except.error (1024, 0) :=
  ((c5_out_of_range 1024 0 1024 [] (0, 0, 0) none none (by simp)).1 (1024, 0)).mpr
    ⟨rfl, by decide⟩

/-- C9: on a spectrum of length exactly 1, `detect` with `window=None`
fails with OutOfRange carrying the default bounds `(0, -1)` (since
`|-1| = 1` is not `< 1`), while the same call with the explicit window
`(0, 0)` returns normally. -/
theorem c9_length_one (x : ℝ) (coeffs : ℝ × ℝ × ℝ) (pf : Option (List ℝ))
    (hpf : ∀ l, pf = some l → l ≠ []) :
    detect [x] coeffs none pf = Except.error (0, -1) ∧
    ∃ r, detect [x] coeffs (some (0, 0)) pf = Except.ok r := by
  constructor
  · rw [detect_error_iff, fft_range_index_error_iff]
    exact ⟨rfl, by norm_num⟩
  · exact detect_ok_of_valid _ _ _ _ (by norm_num) (by norm_num)

theorem c9_length_one_witness :
    detect [(0 : ℝ)] (0, 0, 0) none none = Except.error (0, -1) ∧
    ∃ r, detect [(0 : ℝ)] (0, 0, 0) (some (0, 0)) none = Except.ok r :=
  c9_length_one 0 (0, 0, 0) none (by simp)

/-- C6: `_estimate_noise` returns
`sqrt((sum(fft_mag**2) - 2*peak_mag**2) / (len(fft_mag) - 1))` (NaN when the
radicand is negative), and consequently on a flat spectrum of `L ≥ 2` bins of
constant value `c ≥ 0`, with peak value `c`, the noise RMS is exactly
`c * sqrt((L - 2) / (L - 1))`. -/
theorem c6_estimate_noise (c : ℝ) (L : ℕ) (hL : 2 ≤ L) (hc : 0 ≤ c) :
    (∀ (mag : List ℝ) (p : ℝ), _estimate_noise mag p =
      flSqrt (some (((mag.map fun x => x ^ 2).sum - 2 * p ^ 2) /
        ((mag.length : ℝ) - 1)))) ∧
    _estimate_noise (List.replicate L c) c =
      some (c * Real.sqrt (((L : ℝ) - 2) / ((L : ℝ) - 1))) := by
  refine ⟨fun mag p => rfl, ?_⟩
  have hL1 : (1 : ℝ) ≤ (L : ℝ) - 1 := by
    have : (2 : ℝ) ≤ (L : ℝ) := by exact_mod_cast hL
    linarith
  have hden : (0 : ℝ) < (L : ℝ) - 1 := by linarith
  have hnum : (0 : ℝ) ≤ (L : ℝ) - 2 := by
    have : (2 : ℝ) ≤ (L : ℝ) := by exact_mod_cast hL
    linarith
  have hsum : ((List.replicate L c).map fun x => x ^ 2).sum = (L : ℝ) * c ^ 2 := by
    rw [List.map_replicate, List.sum_replicate, nsmul_eq_mul]
  have hrad : ((L : ℝ) * c ^ 2 - 2 * c ^ 2) / ((L : ℝ) - 1) =
      c ^ 2 * (((L : ℝ) - 2) / ((L : ℝ) - 1)) := by
    field_simp
    ring
  have hnn : (0 : ℝ) ≤ c ^ 2 * (((L : ℝ) - 2) / ((L : ℝ) - 1)) :=
    mul_nonneg (sq_nonneg c) (div_nonneg hnum (le_of_lt hden))
  simp only [_estimate_noise, List.length_replicate, hsum, hrad, flSqrt, Option.bind,
    if_neg (not_lt.mpr hnn)]
  rw [Real.sqrt_mul (sq_nonneg c), Real.sqrt_sq hc]

theorem c6_estimate_noise_witness :
    2 ≤ 2 ∧ (0 : ℝ) ≤ 1 ∧
    _estimate_noise (List.replicate 2 (1 : ℝ)) 1 =
      some (1 * Real.sqrt (((2 : ℕ) - 2 : ℝ) / ((2 : ℕ) - 1 : ℝ))) :=
  ⟨by norm_num, by norm_num, (c6_estimate_noise 1 2 (by norm_num) (by norm_num)).2⟩

/-- The stddev contribution to the threshold power, as the code computes it:
monotone in the weight even across the truthiness boundary where the stddev
stops being computed. -/
lemma stddev_term_mono (σ w w' : ℝ) (h : w ≤ w') :
    w * (if w ≠ 0 then σ else 0) ^ 2 ≤ w' * (if w' ≠ 0 then σ else 0) ^ 2 := by
  rcases eq_or_ne w 0 with hw | hw <;> rcases eq_or_ne w' 0 with hw' | hw'
  · simp [hw, hw']
  · have h0 : (0 : ℝ) ≤ w' := hw ▸ h
    subst hw
    simp only [ne_eq, not_true_eq_false, if_false, if_pos hw', zero_mul]
    exact mul_nonneg h0 (sq_nonneg σ)
  · have hwneg : w ≤ 0 := hw' ▸ h
    subst hw'
    simp only [ne_eq, not_true_eq_false, if_false, if_pos hw, zero_mul]
    nlinarith [sq_nonneg σ]
  · simp only [if_pos hw, if_pos hw']
    exact mul_le_mul_of_nonneg_right h (sq_nonneg σ)

/-- C7: increasing any (or all) of the three threshold coefficients, holding
the spectrum and noise value fixed, never yields a threshold below the old
one — including across the boundary where the stddev weight moves between
zero (stddev not computed, taken as 0) and nonzero (stddev computed), and
also when the noise value is NaN (both thresholds are then NaN and the
strict comparison is false). -/
theorem c7_threshold_monotone (mag : List ℝ) (noise : Fl)
    (tc tc' ts ts' tsd tsd' : ℝ)
    (h1 : tc ≤ tc') (h2 : ts ≤ ts') (h3 : tsd ≤ tsd') :
    ¬ flLt (_calculate_threshold mag (tc', ts', tsd') noise)
        (_calculate_threshold mag (tc, ts, tsd) noise) := by
  cases noise with
  | none =>
    simp [_calculate_threshold, flAdd, flMul, flSqrt, flLt]
  | some nv =>
    simp only [_calculate_threshold, flAdd, flMul, flSqrt, Option.bind, Option.map]
    set σ := np_std mag
    set A := tc + ts * (nv * nv) + tsd * (if tsd ≠ 0 then σ else 0) ^ 2 with hA
    set B := tc' + ts' * (nv * nv) + tsd' * (if tsd' ≠ 0 then σ else 0) ^ 2 with hB
    have hAB : A ≤ B := by
      have ha := stddev_term_mono σ tsd tsd' h3
      have hb : ts * (nv * nv) ≤ ts' * (nv * nv) :=
        mul_le_mul_of_nonneg_right h2 (mul_self_nonneg nv)
      rw [hA, hB]
      exact add_le_add (add_le_add h1 hb) ha
    split_ifs
    · exact fun hx => hx
    · exact fun hx => hx
    · exact fun hx => hx
    · exact not_lt.mpr (Real.sqrt_le_sqrt hAB)

theorem c7_threshold_monotone_witness :
    (0 : ℝ) ≤ 1 ∧
    ¬ flLt (_calculate_threshold [] (1, 1, 1) (some 0))
        (_calculate_threshold [] (0, 0, 0) (some 0)) :=
  ⟨by norm_num,
    c7_threshold_monotone [] (some 0) 0 1 0 1 0 1 (by norm_num) (by norm_num) (by norm_num)⟩

/-- A NaN noise value poisons the whole threshold: NaN propagates through
`**2`, `*`, `+` and `sqrt`. -/
lemma calculate_threshold_nan (mag : List ℝ) (coeffs : ℝ × ℝ × ℝ) :
    _calculate_threshold mag coeffs none = none := by
  simp [_calculate_threshold, flAdd, flMul, flSqrt]

/-- C10: whenever the total spectral energy is strictly below twice the
squared peak magnitude (with at least two bins, so the divisor
`len(fft_mag) - 1` is positive), the noise power is negative and
`noise_rms` is NaN; the threshold is NaN whenever the snr coefficient is
nonzero; the detection verdict is false because the strict `>` against a
NaN threshold is false; and peak index and magnitude are still the ones
computed by `_window_peak`. -/
theorem c10_nan_noise (mag : List ℝ) (coeffs : ℝ × ℝ × ℝ) (w : Option (ℤ × ℤ))
    (pf : Option (List ℝ)) (d : Prop) (pidx : ℤ) (pm : ℝ) (n : Fl)
    (hL : 2 ≤ mag.length)
    (h : detect mag coeffs w pf = Except.ok (d, pidx, pm, n))
    (hE : (mag.map fun x => x ^ 2).sum < 2 * pm ^ 2) :
    n = none ∧
    (coeffs.2.1 ≠ 0 → _calculate_threshold mag coeffs n = none) ∧
    ¬ d ∧
    _window_peak mag w pf = Except.ok (pidx, pm) := by
  rcases hwp : _window_peak mag w pf with e | p
  · rw [detect, hwp] at h
    exact absurd h (by simp)
  · obtain ⟨pi, pm0⟩ := p
    rw [detect, hwp] at h
    simp only [Except.ok.injEq, Prod.mk.injEq] at h
    obtain ⟨hd, hpi, hpm, hn⟩ := h
    subst hpi hpm
    have hnoise : _estimate_noise mag pm0 = none := by
      have hden : (0 : ℝ) < (mag.length : ℝ) - 1 := by
        have : (2 : ℝ) ≤ (mag.length : ℝ) := by exact_mod_cast hL
        linarith
      have hneg : ((mag.map fun x => x ^ 2).sum - 2 * pm0 ^ 2) /
          ((mag.length : ℝ) - 1) < 0 :=
        div_neg_of_neg_of_pos (by linarith) hden
      simp only [_estimate_noise, flSqrt, Option.bind, if_pos hneg]
    rw [hnoise] at hn hd
    rw [calculate_threshold_nan] at hd
    refine ⟨hn.symm, fun _ => by rw [← hn, calculate_threshold_nan], ?_, rfl⟩
    rw [← hd]
    exact fun hx => hx

/-- Concrete evaluation used by the C10 witness: on the spectrum `[0, 1]`
with default window and no filter, the peak is bin 1 with magnitude 1. -/
lemma window_peak_01 : _window_peak [(0 : ℝ), 1] none none = Except.ok (1, 1) := by
  have h1 : _get_window [(0 : ℝ), 1] none = Except.ok ([0, 1], 0) := by
    have h : fft_range_index 0 (-1) 2 = Except.ok (0, 1) := by decide
    simp only [_get_window, List.length_cons, List.length_nil]
    norm_num [h, np_take_wrap, List.range_succ, List.getD,
      show ((0 : ℤ)).toNat = 0 from rfl, show ((1 : ℤ)).toNat = 1 from rfl,
      show ((2 : ℤ)).toNat = 2 from rfl]
  simp only [_window_peak, h1]
  norm_num [np_argmax, np_argmax_go, List.getD]

/-- Concrete evaluation used by the C10 witness: the noise estimate on
`[0, 1]` with peak magnitude 1 is NaN, the threshold is NaN, and the verdict
is false. -/
lemma detect_01 :
    detect [(0 : ℝ), 1] (0, 1, 0) none none = Except.ok (False, 1, 1, none) := by
  have hn : _estimate_noise [(0 : ℝ), 1] 1 = none := by
    simp only [_estimate_noise, flSqrt, Option.bind]
    norm_num
  simp only [detect, window_peak_01, hn, calculate_threshold_nan]
  rfl

theorem c10_nan_noise_witness :
    2 ≤ [(0 : ℝ), 1].length ∧
    detect [(0 : ℝ), 1] (0, 1, 0) none none = Except.ok (False, 1, 1, none) ∧
    ([(0 : ℝ), 1].map fun x => x ^ 2).sum < 2 * (1 : ℝ) ^ 2 ∧
    ((none : Fl) = none ∧
      (((0 : ℝ), (1 : ℝ), (0 : ℝ)).2.1 ≠ 0 →
        _calculate_threshold [(0 : ℝ), 1] (0, 1, 0) none = none) ∧
      ¬ False ∧
      _window_peak [(0 : ℝ), 1] none none = Except.ok (1, 1)) :=
  ⟨by norm_num, detect_01, by norm_num,
    c10_nan_noise [(0 : ℝ), 1] (0, 1, 0) none none False 1 1 none
      (by norm_num) detect_01 (by norm_num)⟩

lemma np_argmax_go_lt (rest : List ℝ) : ∀ (i bi : ℕ) (bv : ℝ), bi < i →
    np_argmax_go rest i bi bv < i + rest.length := by
  induction rest with
  | nil =>
    intro i bi bv h
    simpa [np_argmax_go] using h
  | cons v r ih =>
    intro i bi bv h
    simp only [np_argmax_go, List.length_cons]
    split_ifs
    · have := ih (i + 1) i v (by omega)
      omega
    · have := ih (i + 1) bi bv (by omega)
      omega

/-- The first-maximum index is a valid index of a non-empty list. -/
lemma np_argmax_lt_length (l : List ℝ) (h : l ≠ []) : np_argmax l < l.length := by
  cases l with
  | nil => exact absurd rfl h
  | cons v rest =>
    have := np_argmax_go_lt rest 1 0 v (by omega)
    simp only [np_argmax, List.length_cons]
    omega

lemma np_take_wrap_length (array : List ℝ) (start stop : ℤ) :
    (np_take_wrap array start stop).length = (stop + 1 - start).toNat := by
  simp only [np_take_wrap, List.length_map, List.length_range]

/-- On valid bounds, `_get_window` selects the wrapped range determined by
`resolve_range_actual` and returns its start index. -/
lemma _get_window_valid (array : List ℝ) (w : Option (ℤ × ℤ))
    (hs : |(w.getD (0, -1)).1| < (array.length : ℤ))
    (ht : |(w.getD (0, -1)).2| < (array.length : ℤ)) :
    _get_window array w = Except.ok
      (np_take_wrap array
        (resolve_range_actual (w.getD (0, -1)).1 (w.getD (0, -1)).2 (array.length : ℤ)).1
        (resolve_range_actual (w.getD (0, -1)).1 (w.getD (0, -1)).2 (array.length : ℤ)).2,
       (resolve_range_actual (w.getD (0, -1)).1 (w.getD (0, -1)).2 (array.length : ℤ)).1) := by
  cases w <;>
    simp only [Option.getD] at hs ht ⊢ <;>
    simp only [_get_window, fft_range_index_valid _ _ _ hs ht]

lemma lfilter_length (b x : List ℝ) : (lfilter b x).length = x.length := by
  simp only [lfilter, List.length_map, List.length_range]

/-- The filtered output of `_filter` has the same length as its input
(`lfilter` preserves length, as does the elementwise square root). -/
lemma filter_fst_length (x wt : List ℝ) : (_filter x wt).1.length = x.length := by
  simp only [_filter, List.length_map, lfilter_length]

/-- C2 (counterexample): two failure modes of the original claim.
First, for the spectrum `[5, 1, 1, 2]` (length 4) with the valid window
`(-1, 0)` and no filter, the window resolves to bins `3..4`, the maximum
sits at wrapped bin 0, and `max_idx - delay + start_idx` evaluates to
`1 - 0 + 3 = 4`: that exceeds `length - 1 = 3`, yet the code wraps only when
the value exceeds `length` itself, so `detect` returns `peak_index = 4`,
outside `0..L-1`.  Second, for the all-zero spectrum of length 4 with the
peak filter `[1, 0, 0]` (delay `3 - 0 - 1 = 2`), the filtered maximum sits
at index 0 and `0 - 2 + 0 = -2` is returned unwrapped: `peak_index = -2`,
also outside `0..L-1`. -/
theorem c2_counterexample :
    (|(-1 : ℤ)| < 4 ∧ |(0 : ℤ)| < 4 ∧
      detect [(5 : ℝ), 1, 1, 2] (0, 0, 0) (some (-1, 0)) none =
        Except.ok (False, 4, 5, none) ∧
      ¬((4 : ℤ) ≤ 4 - 1)) ∧
    (detect [(0 : ℝ), 0, 0, 0] (0, 0, 0) none (some [1, 0, 0]) =
        Except.ok (False, -2, 0, some 0) ∧
      ¬((0 : ℤ) ≤ -2)) := by
  have h2 : _window_peak [(5 : ℝ), 1, 1, 2] (some (-1, 0)) none = Except.ok (4, 5) := by
    have h1 : _get_window [(5 : ℝ), 1, 1, 2] (some (-1, 0)) = Except.ok ([2, 5], 3) := by
      have h : fft_range_index (-1) 0 4 = Except.ok (3, 4) := by decide
      simp only [_get_window, List.length_cons, List.length_nil]
      norm_num [h, np_take_wrap, List.range_succ, List.getD,
        show ((3 : ℤ)).toNat = 3 from rfl, show ((0 : ℤ)).toNat = 0 from rfl,
        show ((2 : ℤ)).toNat = 2 from rfl]
    simp only [_window_peak, h1]
    norm_num [np_argmax, np_argmax_go, List.getD]
  have hn : _estimate_noise [(5 : ℝ), 1, 1, 2] 5 = none := by
    simp only [_estimate_noise, flSqrt, Option.bind]
    norm_num
  have hgw0 : _get_window [(0 : ℝ), 0, 0, 0] none = Except.ok ([0, 0, 0, 0], 0) := by
    have h : fft_range_index 0 (-1) 4 = Except.ok (0, 3) := by decide
    simp only [_get_window, List.length_cons, List.length_nil]
    norm_num [h, np_take_wrap, List.range_succ, List.getD,
      show ((0 : ℤ)).toNat = 0 from rfl, show ((1 : ℤ)).toNat = 1 from rfl,
      show ((2 : ℤ)).toNat = 2 from rfl, show ((3 : ℤ)).toNat = 3 from rfl,
      show ((4 : ℤ)).toNat = 4 from rfl]
  have hfil : _filter [(0 : ℝ), 0, 0, 0] [1, 0, 0] = ([0, 0, 0, 0], 2) := by
    simp only [_filter]
    norm_num [np_argmax, np_argmax_go, lfilter, List.range_succ, List.getD, Real.sqrt_zero]
  have hwp2 : _window_peak [(0 : ℝ), 0, 0, 0] none (some [1, 0, 0]) =
      Except.ok (-2, 0) := by
    simp only [_window_peak, hgw0, hfil]
    norm_num [np_argmax, np_argmax_go, List.getD]
  have hn2 : _estimate_noise [(0 : ℝ), 0, 0, 0] 0 = some 0 := by
    simp only [_estimate_noise, flSqrt, Option.bind]
    norm_num [Real.sqrt_zero]
  have hthr2 : _calculate_threshold [(0 : ℝ), 0, 0, 0] (0, 0, 0) (some 0) = some 0 := by
    simp only [_calculate_threshold, flAdd, flMul, flSqrt, Option.bind, Option.map]
    norm_num [Real.sqrt_zero]
  refine ⟨⟨by norm_num, by norm_num, ?_, by norm_num⟩, ?_, by norm_num⟩
  · simp only [detect, h2, hn, calculate_threshold_nan]
    rfl
  · simp only [detect, hwp2, hn2, hthr2]
    simp [flLt, lt_self_iff_false]

/-- C2 (amended): for every valid call to `detect` (any window, any
nonempty peak filter or none), the returned `peak_index` equals
`max_idx - delay + start_idx` in full-spectrum coordinates, wrapped by
subtracting `length` exactly once when — and only when — that value
strictly exceeds `length` (not `length - 1`).  Consequently
`peak_index ≤ L` always; without a peak filter it lies in `0..L` (the
boundary value `L` itself is attainable, see the first counterexample);
with a peak filter of length `M` it can go as low as `-(M - 1)` — negative
values are never wrapped up (see the second counterexample). -/
theorem c2_amended (mag : List ℝ) (coeffs : ℝ × ℝ × ℝ) (w : Option (ℤ × ℤ))
    (pf : Option (List ℝ))
    (hs : |(w.getD (0, -1)).1| < (mag.length : ℤ))
    (ht : |(w.getD (0, -1)).2| < (mag.length : ℤ))
    (hpf : ∀ l, pf = some l → l ≠ []) :
    ∃ d pidx pm n, detect mag coeffs w pf = Except.ok (d, pidx, pm, n) ∧
      (∀ mags start_idx, _get_window mag w = Except.ok (mags, start_idx) →
        (pf = none →
          pidx = if (np_argmax mags : ℤ) + start_idx > (mag.length : ℤ)
            then (np_argmax mags : ℤ) + start_idx - (mag.length : ℤ)
            else (np_argmax mags : ℤ) + start_idx) ∧
        (∀ wt, pf = some wt →
          pidx = if (np_argmax (_filter mags wt).1 : ℤ) - (_filter mags wt).2 + start_idx >
              (mag.length : ℤ)
            then (np_argmax (_filter mags wt).1 : ℤ) - (_filter mags wt).2 + start_idx -
              (mag.length : ℤ)
            else (np_argmax (_filter mags wt).1 : ℤ) - (_filter mags wt).2 + start_idx)) ∧
      pidx ≤ (mag.length : ℤ) ∧
      (pf = none → 0 ≤ pidx) ∧
      (∀ wt, pf = some wt → -((wt.length : ℤ) - 1) ≤ pidx) := by
  have hgw := _get_window_valid mag w hs ht
  obtain ⟨h0, hord, h2L, -, -⟩ :=
    resolve_range_actual_bounds (w.getD (0, -1)).1 (w.getD (0, -1)).2 (mag.length : ℤ) hs ht
  generalize hr : resolve_range_actual (w.getD (0, -1)).1 (w.getD (0, -1)).2
    (mag.length : ℤ) = r at hgw h0 hord h2L
  obtain ⟨a, b⟩ := r
  dsimp only at hgw h0 hord h2L
  have hlen : ((np_take_wrap mag a b).length : ℤ) = b - a + 1 := by
    rw [np_take_wrap_length, Int.toNat_of_nonneg (by omega)]
    ring
  rcases pf with _ | wt
  · have hne : np_take_wrap mag a b ≠ [] := by
      intro hempty
      rw [hempty] at hlen
      simp at hlen
      omega
    have hmaxZ : (np_argmax (np_take_wrap mag a b) : ℤ) ≤ b - a := by
      have hmax := np_argmax_lt_length _ hne
      have hmax2 : ((np_argmax (np_take_wrap mag a b) : ℕ) : ℤ) <
          ((np_take_wrap mag a b).length : ℤ) := by exact_mod_cast hmax
      omega
    have hcast : (0 : ℤ) ≤ (np_argmax (np_take_wrap mag a b) : ℤ) := Int.natCast_nonneg _
    rcases hdet : detect mag coeffs w none with e | ⟨d, pidx, pm, n⟩
    · obtain ⟨rr, hrr⟩ := detect_ok_of_valid mag coeffs w none hs ht
      rw [hdet] at hrr
      exact absurd hrr (by simp)
    · simp only [detect, _window_peak, hgw, Except.ok.injEq, Prod.mk.injEq] at hdet
      obtain ⟨hD, hP, hM, hN⟩ := hdet
      refine ⟨d, pidx, pm, n, rfl, ?_, ?_, ?_, ?_⟩
      · intro mags start_idx hq
        rw [hgw] at hq
        obtain ⟨hm, hsi⟩ := Prod.mk.inj (Except.ok.inj hq)
        subst hm hsi
        refine ⟨fun _ => ?_, fun wt2 hwt2 => Option.noConfusion hwt2⟩
        rw [← hP]
        simp only [sub_zero]
      · rw [← hP]
        split_ifs <;> omega
      · intro _
        rw [← hP]
        split_ifs <;> omega
      · intro wt2 hwt2
        exact Option.noConfusion hwt2
  · have hwtne : wt ≠ [] := hpf wt rfl
    have hwtZ : (1 : ℤ) ≤ (wt.length : ℤ) := by
      have h1 : 0 < wt.length := List.length_pos.mpr hwtne
      omega
    have hargZ : ((np_argmax wt : ℕ) : ℤ) < (wt.length : ℤ) := by
      exact_mod_cast np_argmax_lt_length wt hwtne
    have hargC : (0 : ℤ) ≤ (np_argmax wt : ℤ) := Int.natCast_nonneg _
    have hfl : (((_filter (np_take_wrap mag a b) wt).1.length : ℕ) : ℤ) = b - a + 1 := by
      rw [filter_fst_length]
      exact hlen
    have hne2 : (_filter (np_take_wrap mag a b) wt).1 ≠ [] := by
      intro hempty
      rw [hempty] at hfl
      simp at hfl
      omega
    have hmaxZ : (np_argmax (_filter (np_take_wrap mag a b) wt).1 : ℤ) ≤ b - a := by
      have hmax := np_argmax_lt_length _ hne2
      have hmax2 : ((np_argmax (_filter (np_take_wrap mag a b) wt).1 : ℕ) : ℤ) <
          (((_filter (np_take_wrap mag a b) wt).1.length : ℕ) : ℤ) := by exact_mod_cast hmax
      omega
    have hcast : (0 : ℤ) ≤ (np_argmax (_filter (np_take_wrap mag a b) wt).1 : ℤ) :=
      Int.natCast_nonneg _
    have hdl : (_filter (np_take_wrap mag a b) wt).2 =
        (wt.length : ℤ) - (np_argmax wt : ℤ) - 1 := rfl
    have hdl0 : 0 ≤ (_filter (np_take_wrap mag a b) wt).2 := by
      rw [hdl]
      omega
    have hdl1 : (_filter (np_take_wrap mag a b) wt).2 ≤ (wt.length : ℤ) - 1 := by
      rw [hdl]
      omega
    rcases hdet : detect mag coeffs w (some wt) with e | ⟨d, pidx, pm, n⟩
    · obtain ⟨rr, hrr⟩ := detect_ok_of_valid mag coeffs w (some wt) hs ht
      rw [hdet] at hrr
      exact absurd hrr (by simp)
    · simp only [detect, _window_peak, hgw, Except.ok.injEq, Prod.mk.injEq] at hdet
      obtain ⟨hD, hP, hM, hN⟩ := hdet
      refine ⟨d, pidx, pm, n, rfl, ?_, ?_, ?_, ?_⟩
      · intro mags start_idx hq
        rw [hgw] at hq
        obtain ⟨hm, hsi⟩ := Prod.mk.inj (Except.ok.inj hq)
        subst hm hsi
        refine ⟨fun hno => Option.noConfusion hno, fun wt2 hwt2 => ?_⟩
        injection hwt2 with hw2
        subst hw2
        rw [← hP]
      · rw [← hP]
        split_ifs <;> omega
      · intro hno
        exact Option.noConfusion hno
      · intro wt2 hwt2
        injection hwt2 with hw2
        subst hw2
        rw [← hP]
        split_ifs <;> omega

theorem c2_amended_witness :
    |((some ((0 : ℤ), (0 : ℤ))).getD (0, -1)).1| < (([(1 : ℝ)]).length : ℤ) ∧
    ∃ d pidx pm n, detect [(1 : ℝ)] (0, 0, 0) (some (0, 0)) none =
        Except.ok (d, pidx, pm, n) ∧
      (∀ mags start_idx, _get_window [(1 : ℝ)] (some (0, 0)) =
          Except.ok (mags, start_idx) →
        ((none : Option (List ℝ)) = none →
          pidx = if (np_argmax mags : ℤ) + start_idx > (([(1 : ℝ)]).length : ℤ)
            then (np_argmax mags : ℤ) + start_idx - (([(1 : ℝ)]).length : ℤ)
            else (np_argmax mags : ℤ) + start_idx) ∧
        (∀ wt, (none : Option (List ℝ)) = some wt →
          pidx = if (np_argmax (_filter mags wt).1 : ℤ) - (_filter mags wt).2 + start_idx >
              (([(1 : ℝ)]).length : ℤ)
            then (np_argmax (_filter mags wt).1 : ℤ) - (_filter mags wt).2 + start_idx -
              (([(1 : ℝ)]).length : ℤ)
            else (np_argmax (_filter mags wt).1 : ℤ) - (_filter mags wt).2 + start_idx)) ∧
      pidx ≤ (([(1 : ℝ)]).length : ℤ) ∧
      ((none : Option (List ℝ)) = none → 0 ≤ pidx) ∧
      (∀ wt, (none : Option (List ℝ)) = some wt → -((wt.length : ℤ) - 1) ≤ pidx) :=
  ⟨by norm_num,
    c2_amended [(1 : ℝ)] (0, 0, 0) (some (0, 0)) none (by norm_num) (by norm_num)
      (fun l h => Option.noConfusion h)⟩

end CarrierDetect
